import Mathlib

/-!
# Verification of the `binarypuzzle` library

A shallow embedding of `src/binarypuzzle/__init__.py`.  Cells of a puzzle are
Python `Optional[int]` values, modelled as `Option Int` (`none` is Python's
`None`, the unknown marker `N`).  The constructor `BinaryPuzzle.__init__` is
modelled by `construct`, which returns `Except.error PuzzleError.invalid`
where the Python code raises `InvalidPuzzleError`.

`BinaryPuzzle.solve` delegates satisfiability to the external z3 solver over
the constraint set it builds (seed equalities for the given cells, a 0/1
domain constraint per cell, row/column sums equal to `size // 2`, row and
column distinctness, and — only when `size > 2` — the sliding-window
no-triple constraints).  We embed that constraint set as the predicate
`satisfies` over assignments `a : Nat → Nat → Int` (one z3 `Int` per grid
position) and model z3 as a complete decision procedure for it: `solve` is
the relation `solveSpec`, whose outcomes are the solved grid built from a
satisfying assignment, `UnsolvablePuzzleError` when no assignment satisfies
the constraints, or an `IndexError` when the seeding loop reads
`self._puzzle[x][y]` out of bounds.
-/

namespace BinaryPuzzleModel

/-- A cell of a binary puzzle: `some 0` and `some 1` are concrete values,
`none` is Python's `None`. -/
abbrev Cell := Option Int

/-- Modelled from the spec: the constant `N` (exported by the `constants`
module, which is not part of the sources here) is the unknown marker,
i.e. Python's `None`. -/
def N : Cell := none

/-- The two exception classes (declared in the `exceptions` module, not part
of the sources here): `InvalidPuzzleError` and `UnsolvablePuzzleError`. -/
inductive PuzzleError
  | invalid
  | unsolvable
deriving DecidableEq

/-- The `BinaryPuzzle` class: its stored fields `_puzzle` and `_size`. -/
structure BinaryPuzzle where
  puzzle : List (List Cell)
  size : Nat
deriving DecidableEq

/-- The `value not in {0, 1, None}` membership test from `__init__`. -/
def validCell (v : Cell) : Bool :=
  v == some 0 || v == some 1 || v == none

/-- `reduce(lambda acc, row: acc + len(row), puzzle, 0)` from `__init__`. -/
def totalCells (p : List (List Cell)) : Nat :=
  p.foldl (fun acc row => acc + row.length) 0

/-- `BinaryPuzzle.__init__`: the four validation checks, in source order,
then storage of `_puzzle` and `_size`. -/
def construct (p : List (List Cell)) : Except PuzzleError BinaryPuzzle :=
  let size := p.length
  if size == 0 then Except.error PuzzleError.invalid
  else if totalCells p != size ^ 2 then Except.error PuzzleError.invalid
  else if size % 2 != 0 then Except.error PuzzleError.invalid
  else if !(p.all fun row => row.all validCell) then Except.error PuzzleError.invalid
  else Except.ok ⟨p, size⟩

/-- The subscript expression `self._puzzle[x][y]`; the result `none` models
an `IndexError`. -/
def cellRead (p : List (List Cell)) (x y : Nat) : Option Cell :=
  (p.get? x).bind fun row => row.get? y

/-- `BinaryPuzzle.rows`: builds a fresh list holding the rows in order. -/
def BinaryPuzzle.rows (g : BinaryPuzzle) : List (List Cell) :=
  g.puzzle.foldl (fun result row => result.concat row) []

/-- Helper for loops that collect one value per index and raise `IndexError`
(here: `none`) as soon as a read is out of bounds. -/
def optList {α : Type} (f : Nat → Option α) : List Nat → Option (List α)
  | [] => some []
  | x :: xs => (f x).bind fun c => (optList f xs).map fun cs => c :: cs

/-- `BinaryPuzzle.columns`: for each `y < size` collect
`self._puzzle[x][y]` for `x < size`; `none` models the `IndexError` raised
on a ragged underlying matrix. -/
def BinaryPuzzle.columnsM (g : BinaryPuzzle) : Option (List (List Cell)) :=
  optList (fun y => optList (fun x => cellRead g.puzzle x y) (List.range g.size))
    (List.range g.size)

/-- `BinaryPuzzle.positions`: `[(x, y) for x in range(size) for y in range(size)]`. -/
def BinaryPuzzle.positions (g : BinaryPuzzle) : List (Nat × Nat) :=
  (List.range g.size).bind fun x => (List.range g.size).map fun y => (x, y)

/-- Any Python object that could stand on the right of `puzzle == other`. -/
inductive PyValue
  | puzzle (g : BinaryPuzzle)
  | intVal (n : Int)

/-- The result of a Python `__eq__` call. -/
inductive EqResult
  | bool (b : Bool)
  | notImplemented
deriving DecidableEq

/-- `BinaryPuzzle.__eq__`: `NotImplemented` for a non-`BinaryPuzzle` operand,
otherwise comparison of the `rows()` lists. -/
def eqMethod (self : BinaryPuzzle) (other : PyValue) : EqResult :=
  match other with
  | PyValue.puzzle o => EqResult.bool (self.rows == o.rows)
  | _ => EqResult.notImplemented

/-- The full Python `self == other` operation: when `__eq__` answers
`NotImplemented`, Python consults the reflected operand (an `int` also
answers `NotImplemented`) and falls back to identity, which is false for
objects of different types. -/
def pyEq (self : BinaryPuzzle) (other : PyValue) : Bool :=
  match eqMethod self other with
  | EqResult.bool b => b
  | EqResult.notImplemented => false

/-! ## The constraint set built by `solve` -/

/-- One seeding constraint `symbols[(x, y)] == value`: positions holding
`None` are skipped. -/
def seedCellOk (g : BinaryPuzzle) (a : Nat → Nat → Int) (x y : Nat) : Bool :=
  match cellRead g.puzzle x y with
  | some (some v) => a x y == v
  | _ => true

/-- All seeding constraints, over every position of the grid. -/
def seedSat (g : BinaryPuzzle) (a : Nat → Nat → Int) : Bool :=
  (List.range g.size).all fun x => (List.range g.size).all fun y => seedCellOk g a x y

/-- `Or(symbol == 0, symbol == 1)` for every symbol. -/
def domainSat (n : Nat) (a : Nat → Nat → Int) : Bool :=
  (List.range n).all fun x => (List.range n).all fun y => (a x y == 0 || a x y == 1)

/-- The list of symbols of row `x`, in column order. -/
def rowList (n : Nat) (a : Nat → Nat → Int) (x : Nat) : List Int :=
  (List.range n).map fun y => a x y

/-- The list of symbols of column `y`, in row order. -/
def colList (n : Nat) (a : Nat → Nat → Int) (y : Nat) : List Int :=
  (List.range n).map fun x => a x y

/-- `Sum(row) == size // 2` for every row. -/
def rowBalance (n : Nat) (a : Nat → Nat → Int) : Bool :=
  (List.range n).all fun x => (rowList n a x).sum == ((n / 2 : Nat) : Int)

/-- `Sum(column) == size // 2` for every column. -/
def colBalance (n : Nat) (a : Nat → Nat → Int) : Bool :=
  (List.range n).all fun y => (colList n a y).sum == ((n / 2 : Nat) : Int)

/-- `Not(Or([And([a == b ...]) for row_a ... for row_b ... if row_a != row_b]))`:
the `row_a != row_b` guard compares the two lists of symbols, which differ
exactly when the two row indices differ. -/
def rowsUnique (n : Nat) (a : Nat → Nat → Int) : Bool :=
  !((List.range n).any fun x1 => (List.range n).any fun x2 =>
    x1 != x2 && ((List.range n).all fun y => a x1 y == a x2 y))

/-- The same distinctness constraint for columns. -/
def colsUnique (n : Nat) (a : Nat → Nat → Int) : Bool :=
  !((List.range n).any fun y1 => (List.range n).any fun y2 =>
    y1 != y2 && ((List.range n).all fun x => a x y1 == a x y2))

/-- `Not(And([a == b, b == c]))` for every width-3 window of every row:
`for i in range(size - 2)` over `row[i:i + 3]`. -/
def rowTriples (n : Nat) (a : Nat → Nat → Int) : Bool :=
  (List.range n).all fun x => (List.range (n - 2)).all fun i =>
    !(a x i == a x (i + 1) && a x (i + 1) == a x (i + 2))

/-- The same window constraint for every column. -/
def colTriples (n : Nat) (a : Nat → Nat → Int) : Bool :=
  (List.range n).all fun y => (List.range (n - 2)).all fun i =>
    !(a i y == a (i + 1) y && a (i + 1) y == a (i + 2) y)

/-- The no-triple constraints are added only under `if size > 2:`. -/
def tripleSat (n : Nat) (a : Nat → Nat → Int) : Bool :=
  if 2 < n then rowTriples n a && colTriples n a else true

/-- The whole constraint set handed to the solver by `solve`. -/
def satisfies (g : BinaryPuzzle) (a : Nat → Nat → Int) : Bool :=
  seedSat g a && domainSat g.size a && rowBalance g.size a && colBalance g.size a &&
    rowsUnique g.size a && colsUnique g.size a && tripleSat g.size a

/-- `solver.check() == sat`: some assignment satisfies every constraint. -/
def Solvable (g : BinaryPuzzle) : Prop :=
  ∃ a, satisfies g a = true

/-- The matrix handed to `BinaryPuzzle(...)` at the end of `solve`:
`[[result[(x, y)].as_long() for y in range(size)] for x in range(size)]`. -/
def mkResult (g : BinaryPuzzle) (a : Nat → Nat → Int) : List (List Cell) :=
  (List.range g.size).map fun x => (List.range g.size).map fun y => (some (a x y) : Cell)

/-- The seeding loop reads `self._puzzle[x][y]` at every position; it raises
`IndexError` unless each read is in bounds. -/
def seedOk (g : BinaryPuzzle) : Bool :=
  (List.range g.size).all fun x => (List.range g.size).all fun y =>
    (cellRead g.puzzle x y).isSome

/-- The ways a call of `solve` can end. -/
inductive SolveOutcome
  | ok (g : BinaryPuzzle)
  | unsolvable
  | indexError
  | constructError
deriving DecidableEq

/-- The final `return BinaryPuzzle(...)`: a validation failure there would
surface as an `InvalidPuzzleError` escaping `solve`. -/
def outcomeOfExcept : Except PuzzleError BinaryPuzzle → SolveOutcome
  | Except.ok g => SolveOutcome.ok g
  | Except.error _ => SolveOutcome.constructError

/-- `BinaryPuzzle.solve` as a relation between the receiver and the outcome.
If some position read is out of bounds the seeding loop raises `IndexError`.
Otherwise z3 (modelled as a complete decision procedure over the built
constraint set) either reports unsat — `UnsolvablePuzzleError` — or yields a
satisfying assignment, from which the result grid is built and passed to the
`BinaryPuzzle` constructor. -/
def solveSpec (g : BinaryPuzzle) (out : SolveOutcome) : Prop :=
  if seedOk g = true then
    ((¬ Solvable g) ∧ out = SolveOutcome.unsolvable) ∨
      (∃ a, satisfies g a = true ∧ out = outcomeOfExcept (construct (mkResult g a)))
  else out = SolveOutcome.indexError

/-! ## The spec's statement of the four rules -/

/-- The four puzzle rules exactly as the specification words them (balance as
counts of zeros and ones, the no-triple rule, and row/column distinctness),
for an assignment that keeps the given cells.  This definition follows the
spec's words and is compared against the code-derived `satisfies`. -/
def SpecSolution (g : BinaryPuzzle) (b : Nat → Nat → Int) : Prop :=
  (∀ x < g.size, ∀ y < g.size, b x y = 0 ∨ b x y = 1) ∧
  (∀ x < g.size, ∀ y < g.size, ∀ v : Int,
    cellRead g.puzzle x y = some (some v) → b x y = v) ∧
  (∀ x < g.size,
    (rowList g.size b x).count 0 = g.size / 2 ∧ (rowList g.size b x).count 1 = g.size / 2) ∧
  (∀ y < g.size,
    (colList g.size b y).count 0 = g.size / 2 ∧ (colList g.size b y).count 1 = g.size / 2) ∧
  (∀ x < g.size, ∀ i, i + 2 < g.size →
    ¬(b x i = b x (i + 1) ∧ b x (i + 1) = b x (i + 2))) ∧
  (∀ y < g.size, ∀ i, i + 2 < g.size →
    ¬(b i y = b (i + 1) y ∧ b (i + 1) y = b (i + 2) y)) ∧
  (∀ x1 < g.size, ∀ x2 < g.size, x1 ≠ x2 → rowList g.size b x1 ≠ rowList g.size b x2) ∧
  (∀ y1 < g.size, ∀ y2 < g.size, y1 ≠ y2 → colList g.size b y1 ≠ colList g.size b y2)

/-- The grid has a concrete (non-`None`) value at every position: the shape
of a fully given puzzle. -/
def fullyGiven (g : BinaryPuzzle) (b : Nat → Nat → Int) : Prop :=
  ∀ x < g.size, ∀ y < g.size, cellRead g.puzzle x y = some (some (b x y))

/-! ## Concrete example data -/

/-- A ragged matrix whose total cell count nevertheless equals `size ** 2`. -/
def raggedP : List (List Cell) := [[some 0, some 1, some 0], [some 0]]

/-- The already-solved 2×2 puzzle from the test suite. -/
def twoP : List (List Cell) := [[some 0, some 1], [some 1, some 0]]

/-- The grid built from `twoP`. -/
def twoG : BinaryPuzzle := ⟨twoP, 2⟩

/-- The checkerboard assignment matching `twoP`. -/
def twoA : Nat → Nat → Int := fun x y => if (x + y) % 2 = 0 then 0 else 1

/-- The grid `solve` hands back for `twoG`. -/
def twoSolved : BinaryPuzzle := ⟨mkResult twoG twoA, 2⟩

/-- The already-solved 4×4 puzzle from the test suite. -/
def fourP : List (List Cell) :=
  [[some 0, some 1, some 1, some 0],
   [some 1, some 0, some 0, some 1],
   [some 0, some 1, some 0, some 1],
   [some 1, some 0, some 1, some 0]]

/-- The grid built from `fourP`. -/
def fourG : BinaryPuzzle := ⟨fourP, 4⟩

/-- The assignment reading the values of `fourP`. -/
def fourA : Nat → Nat → Int := fun x y =>
  match cellRead fourP x y with
  | some (some v) => v
  | _ => 0

/-- The grid `solve` hands back for `fourG`. -/
def fourSolved : BinaryPuzzle := ⟨mkResult fourG fourA, 4⟩

/-- The all-ones 4×4 matrix from the test suite (unsolvable). -/
def ones4P : List (List Cell) :=
  [[some 1, some 1, some 1, some 1],
   [some 1, some 1, some 1, some 1],
   [some 1, some 1, some 1, some 1],
   [some 1, some 1, some 1, some 1]]

/-- `[[1, 1], [1, N]]` from the test suite (unsolvable). -/
def ones2P : List (List Cell) := [[some 1, some 1], [some 1, none]]

/-! ## Basic lemmas about the embedded operations -/

theorem foldl_concat_eq {α : Type} (l acc : List α) :
    l.foldl (fun result row => result.concat row) acc = acc ++ l := by
  induction l generalizing acc with
  | nil => simp
  | cons a l ih =>
    rw [List.foldl_cons, ih]
    simp [List.concat_eq_append, List.append_assoc]

theorem rows_eq (g : BinaryPuzzle) : g.rows = g.puzzle := by
  unfold BinaryPuzzle.rows
  rw [foldl_concat_eq, List.nil_append]

theorem totalCells_eq (p : List (List Cell)) : totalCells p = (p.map List.length).sum := by
  have aux : ∀ (q : List (List Cell)) (c : Nat),
      q.foldl (fun acc row => acc + row.length) c = c + (q.map List.length).sum := by
    intro q
    induction q with
    | nil => simp
    | cons r q ih => intro c; simp [ih, Nat.add_assoc]
  simpa using aux p 0

theorem validCell_iff (v : Cell) :
    validCell v = true ↔ v = some 0 ∨ v = some 1 ∨ v = none := by
  simp [validCell, Bool.or_eq_true, or_assoc]

theorem construct_ok_inv {p : List (List Cell)} {g : BinaryPuzzle}
    (h : construct p = Except.ok g) :
    g = ⟨p, p.length⟩ ∧ p.length ≠ 0 ∧ totalCells p = p.length ^ 2 ∧
      p.length % 2 = 0 ∧ ∀ row ∈ p, ∀ v ∈ row, validCell v = true := by
  simp only [construct] at h
  by_cases h1 : (p.length == 0) = true
  · rw [if_pos h1] at h; simp at h
  rw [if_neg h1] at h
  by_cases h2 : (totalCells p != p.length ^ 2) = true
  · rw [if_pos h2] at h; simp at h
  rw [if_neg h2] at h
  by_cases h3 : (p.length % 2 != 0) = true
  · rw [if_pos h3] at h; simp at h
  rw [if_neg h3] at h
  by_cases h4 : (!(p.all fun row => row.all validCell)) = true
  · rw [if_pos h4] at h; simp at h
  rw [if_neg h4] at h
  injection h with h
  subst h
  simp only [beq_iff_eq, Bool.not_eq_true] at h1
  simp only [bne_iff_ne, ne_eq, Bool.not_eq_true, Decidable.not_not] at h2 h3
  simp only [Bool.not_eq_true', Bool.not_eq_false] at h4
  refine ⟨rfl, h1, h2, h3, ?_⟩
  intro row hrow v hv
  exact (List.all_eq_true.mp ((List.all_eq_true.mp h4) row hrow)) v hv

theorem construct_ok_of {p : List (List Cell)} (h1 : p.length ≠ 0)
    (h2 : totalCells p = p.length ^ 2) (h3 : p.length % 2 = 0)
    (h4 : ∀ row ∈ p, ∀ v ∈ row, validCell v = true) :
    construct p = Except.ok ⟨p, p.length⟩ := by
  have hb4 : (p.all fun row => row.all validCell) = true :=
    List.all_eq_true.mpr fun row hrow => List.all_eq_true.mpr fun v hv => h4 row hrow v hv
  simp only [construct]
  rw [if_neg (by simpa using h1), if_neg (by simpa using h2),
    if_neg (by simpa using h3), if_neg (by simp [hb4])]

theorem all_range {n : Nat} {f : Nat → Bool} :
    ((List.range n).all f = true) ↔ ∀ i < n, f i = true := by
  simp [List.all_eq_true, List.mem_range]

theorem any_range {n : Nat} {f : Nat → Bool} :
    ((List.range n).any f = true) ↔ ∃ i, i < n ∧ f i = true := by
  simp [List.any_eq_true, List.mem_range]

/-! ## Counting lemmas used to relate sums and counts -/

theorem count_map_some (l : List Int) (v : Int) :
    (l.map some).count (some v) = l.count v := by
  induction l with
  | nil => rfl
  | cons a l ih => simp [List.count_cons, ih]

theorem count_none_map_some (l : List Int) : (l.map some).count (none : Cell) = 0 := by
  simp [List.count_eq_zero]

theorem sum_eq_count_one (l : List Int) (h : ∀ v ∈ l, v = 0 ∨ v = 1) :
    l.sum = (l.count 1 : Int) := by
  induction l with
  | nil => rfl
  | cons a l ih =>
    have ht := ih fun v hv => h v (List.mem_cons_of_mem _ hv)
    rcases h a (List.mem_cons_self _ _) with h0 | h0 <;> subst h0 <;>
      simp [List.count_cons, ht] <;> omega

theorem count01_length (l : List Int) (h : ∀ v ∈ l, v = 0 ∨ v = 1) :
    l.count 0 + l.count 1 = l.length := by
  induction l with
  | nil => rfl
  | cons a l ih =>
    have ht := ih fun v hv => h v (List.mem_cons_of_mem _ hv)
    rcases h a (List.mem_cons_self _ _) with h0 | h0 <;> subst h0 <;>
      simp [List.count_cons, ht] <;> omega

/-! ## Characterisations of the individual constraint families -/

theorem seedCellOk_iff {g : BinaryPuzzle} {a : Nat → Nat → Int} {x y : Nat} :
    seedCellOk g a x y = true ↔
      ∀ v : Int, cellRead g.puzzle x y = some (some v) → a x y = v := by
  unfold seedCellOk
  rcases hc : cellRead g.puzzle x y with _ | c
  · simp
  · rcases c with _ | v
    · simp
    · simp [beq_iff_eq]

theorem seedSat_iff {g : BinaryPuzzle} {a : Nat → Nat → Int} :
    seedSat g a = true ↔
      ∀ x < g.size, ∀ y < g.size, ∀ v : Int,
        cellRead g.puzzle x y = some (some v) → a x y = v := by
  simp only [seedSat, all_range, seedCellOk_iff]

theorem domainSat_iff {n : Nat} {a : Nat → Nat → Int} :
    domainSat n a = true ↔ ∀ x < n, ∀ y < n, a x y = 0 ∨ a x y = 1 := by
  simp only [domainSat, all_range, Bool.or_eq_true, beq_iff_eq]

theorem rowBalance_iff {n : Nat} {a : Nat → Nat → Int} :
    rowBalance n a = true ↔ ∀ x < n, (rowList n a x).sum = ((n / 2 : Nat) : Int) := by
  simp only [rowBalance, all_range, beq_iff_eq]

theorem colBalance_iff {n : Nat} {a : Nat → Nat → Int} :
    colBalance n a = true ↔ ∀ y < n, (colList n a y).sum = ((n / 2 : Nat) : Int) := by
  simp only [colBalance, all_range, beq_iff_eq]

theorem rowList_get? {n : Nat} {a : Nat → Nat → Int} {x y : Nat} (hy : y < n) :
    (rowList n a x).get? y = some (a x y) := by
  rw [rowList, List.get?_map, List.get?_range hy]
  rfl

theorem colList_get? {n : Nat} {a : Nat → Nat → Int} {x y : Nat} (hx : x < n) :
    (colList n a y).get? x = some (a x y) := by
  rw [colList, List.get?_map, List.get?_range hx]
  rfl

theorem rowList_eq_iff {n : Nat} {a : Nat → Nat → Int} {x1 x2 : Nat} :
    rowList n a x1 = rowList n a x2 ↔ ∀ y < n, a x1 y = a x2 y := by
  constructor
  · intro h y hy
    have h1 := rowList_get? (a := a) (x := x1) hy
    have h2 := rowList_get? (a := a) (x := x2) hy
    rw [h, h2] at h1
    exact (Option.some_inj.mp h1).symm
  · intro h
    exact List.map_congr_left fun y hy => h y (List.mem_range.mp hy)

theorem colList_eq_iff {n : Nat} {a : Nat → Nat → Int} {y1 y2 : Nat} :
    colList n a y1 = colList n a y2 ↔ ∀ x < n, a x y1 = a x y2 := by
  constructor
  · intro h x hx
    have h1 := colList_get? (a := a) (y := y1) hx
    have h2 := colList_get? (a := a) (y := y2) hx
    rw [h, h2] at h1
    exact (Option.some_inj.mp h1).symm
  · intro h
    exact List.map_congr_left fun x hx => h x (List.mem_range.mp hx)

theorem rowsUnique_iff {n : Nat} {a : Nat → Nat → Int} :
    rowsUnique n a = true ↔
      ∀ x1 < n, ∀ x2 < n, x1 ≠ x2 → rowList n a x1 ≠ rowList n a x2 := by
  have hstep : rowsUnique n a = true ↔
      ¬(((List.range n).any fun x1 => (List.range n).any fun x2 =>
        x1 != x2 && ((List.range n).all fun y => a x1 y == a x2 y)) = true) := by
    unfold rowsUnique
    cases h : ((List.range n).any fun x1 => (List.range n).any fun x2 =>
        x1 != x2 && ((List.range n).all fun y => a x1 y == a x2 y)) <;> simp [h]
  rw [hstep]
  simp only [any_range, Bool.and_eq_true, bne_iff_ne, ne_eq, all_range, beq_iff_eq]
  constructor
  · intro h x1 hx1 x2 hx2 hne heq
    exact h ⟨x1, hx1, x2, hx2, hne, fun y hy => (rowList_eq_iff.mp heq) y hy⟩
  · rintro h ⟨x1, hx1, x2, hx2, hne, heq⟩
    exact h x1 hx1 x2 hx2 hne (rowList_eq_iff.mpr heq)

theorem colsUnique_iff {n : Nat} {a : Nat → Nat → Int} :
    colsUnique n a = true ↔
      ∀ y1 < n, ∀ y2 < n, y1 ≠ y2 → colList n a y1 ≠ colList n a y2 := by
  have hstep : colsUnique n a = true ↔
      ¬(((List.range n).any fun y1 => (List.range n).any fun y2 =>
        y1 != y2 && ((List.range n).all fun x => a x y1 == a x y2)) = true) := by
    unfold colsUnique
    cases h : ((List.range n).any fun y1 => (List.range n).any fun y2 =>
        y1 != y2 && ((List.range n).all fun x => a x y1 == a x y2)) <;> simp [h]
  rw [hstep]
  simp only [any_range, Bool.and_eq_true, bne_iff_ne, ne_eq, all_range, beq_iff_eq]
  constructor
  · intro h y1 hy1 y2 hy2 hne heq
    exact h ⟨y1, hy1, y2, hy2, hne, fun x hx => (colList_eq_iff.mp heq) x hx⟩
  · rintro h ⟨y1, hy1, y2, hy2, hne, heq⟩
    exact h y1 hy1 y2 hy2 hne (colList_eq_iff.mpr heq)

theorem rowTriples_iff {n : Nat} {a : Nat → Nat → Int} :
    rowTriples n a = true ↔
      ∀ x < n, ∀ i, i + 2 < n → ¬(a x i = a x (i + 1) ∧ a x (i + 1) = a x (i + 2)) := by
  simp only [rowTriples, all_range, Bool.not_eq_true', Bool.and_eq_false_iff,
    beq_eq_false_iff_ne, ne_eq]
  constructor
  · intro h x hx i hi
    have := h x hx i (by omega)
    tauto
  · intro h x hx i hi
    have := h x hx i (by omega)
    tauto

theorem colTriples_iff {n : Nat} {a : Nat → Nat → Int} :
    colTriples n a = true ↔
      ∀ y < n, ∀ i, i + 2 < n → ¬(a i y = a (i + 1) y ∧ a (i + 1) y = a (i + 2) y) := by
  simp only [colTriples, all_range, Bool.not_eq_true', Bool.and_eq_false_iff,
    beq_eq_false_iff_ne, ne_eq]
  constructor
  · intro h y hy i hi
    have := h y hy i (by omega)
    tauto
  · intro h y hy i hi
    have := h y hy i (by omega)
    tauto

theorem tripleSat_iff {n : Nat} {a : Nat → Nat → Int} :
    tripleSat n a = true ↔
      (∀ x < n, ∀ i, i + 2 < n → ¬(a x i = a x (i + 1) ∧ a x (i + 1) = a x (i + 2))) ∧
        (∀ y < n, ∀ i, i + 2 < n → ¬(a i y = a (i + 1) y ∧ a (i + 1) y = a (i + 2) y)) := by
  unfold tripleSat
  by_cases h2 : 2 < n
  · rw [if_pos h2, Bool.and_eq_true, rowTriples_iff, colTriples_iff]
  · rw [if_neg h2]
    constructor
    · intro _
      exact ⟨fun x _ i hi => absurd (by omega : 2 < n) h2,
        fun y _ i hi => absurd (by omega : 2 < n) h2⟩
    · intro _
      rfl

theorem satisfies_parts {g : BinaryPuzzle} {a : Nat → Nat → Int} :
    satisfies g a = true ↔
      seedSat g a = true ∧ domainSat g.size a = true ∧ rowBalance g.size a = true ∧
        colBalance g.size a = true ∧ rowsUnique g.size a = true ∧
        colsUnique g.size a = true ∧ tripleSat g.size a = true := by
  simp [satisfies, Bool.and_eq_true, and_assoc]

/-! ## The sum constraint is the spec's counting constraint -/

theorem rowList_mem01 {n : Nat} {a : Nat → Nat → Int} {x : Nat}
    (hdom : ∀ y < n, a x y = 0 ∨ a x y = 1) :
    ∀ v ∈ rowList n a x, v = 0 ∨ v = 1 := by
  intro v hv
  rcases List.mem_map.mp hv with ⟨y, hy, rfl⟩
  exact hdom y (List.mem_range.mp hy)

theorem colList_mem01 {n : Nat} {a : Nat → Nat → Int} {y : Nat}
    (hdom : ∀ x < n, a x y = 0 ∨ a x y = 1) :
    ∀ v ∈ colList n a y, v = 0 ∨ v = 1 := by
  intro v hv
  rcases List.mem_map.mp hv with ⟨x, hx, rfl⟩
  exact hdom x (List.mem_range.mp hx)

theorem length_rowList {n : Nat} {a : Nat → Nat → Int} {x : Nat} :
    (rowList n a x).length = n := by
  simp [rowList]

theorem length_colList {n : Nat} {a : Nat → Nat → Int} {y : Nat} :
    (colList n a y).length = n := by
  simp [colList]

theorem sum_iff_counts {l : List Int} {n : Nat} (hev : n % 2 = 0) (hlen : l.length = n)
    (h01 : ∀ v ∈ l, v = 0 ∨ v = 1) :
    l.sum = ((n / 2 : Nat) : Int) ↔ (l.count 0 = n / 2 ∧ l.count 1 = n / 2) := by
  rw [sum_eq_count_one l h01]
  have hc := count01_length l h01
  constructor
  · intro h
    have h1 : l.count 1 = n / 2 := by exact_mod_cast h
    omega
  · rintro ⟨h0, h1⟩
    exact_mod_cast congrArg (Nat.cast (R := Int)) h1

/-! ## The code's constraint set is exactly the spec's four rules -/

theorem satisfies_iff_spec {g : BinaryPuzzle} (hev : g.size % 2 = 0) (b : Nat → Nat → Int) :
    satisfies g b = true ↔ SpecSolution g b := by
  rw [satisfies_parts]
  unfold SpecSolution
  constructor
  · rintro ⟨hseed, hdom, hrb, hcb, hru, hcu, htr⟩
    have hdom' := domainSat_iff.mp hdom
    have htr' := tripleSat_iff.mp htr
    refine ⟨hdom', seedSat_iff.mp hseed, ?_, ?_, htr'.1, htr'.2,
      rowsUnique_iff.mp hru, colsUnique_iff.mp hcu⟩
    · intro x hx
      exact (sum_iff_counts hev length_rowList
        (rowList_mem01 fun y hy => hdom' x hx y hy)).mp (rowBalance_iff.mp hrb x hx)
    · intro y hy
      exact (sum_iff_counts hev length_colList
        (colList_mem01 fun x hx => hdom' x hx y hy)).mp (colBalance_iff.mp hcb y hy)
  · rintro ⟨hdom', hseed, hrow, hcol, hrt, hct, hru, hcu⟩
    refine ⟨seedSat_iff.mpr hseed, domainSat_iff.mpr hdom', ?_, ?_,
      rowsUnique_iff.mpr hru, colsUnique_iff.mpr hcu, tripleSat_iff.mpr ⟨hrt, hct⟩⟩
    · refine rowBalance_iff.mpr fun x hx => ?_
      exact (sum_iff_counts hev length_rowList
        (rowList_mem01 fun y hy => hdom' x hx y hy)).mpr (hrow x hx)
    · refine colBalance_iff.mpr fun y hy => ?_
      exact (sum_iff_counts hev length_colList
        (colList_mem01 fun x hx => hdom' x hx y hy)).mpr (hcol y hy)

/-! ## The shape of `solve`'s result grid -/

theorem seedOk_iff {g : BinaryPuzzle} :
    seedOk g = true ↔ ∀ x < g.size, ∀ y < g.size, (cellRead g.puzzle x y).isSome = true := by
  simp only [seedOk, all_range]

theorem cellRead_mkResult {g : BinaryPuzzle} {a : Nat → Nat → Int} {x y : Nat}
    (hx : x < g.size) (hy : y < g.size) :
    cellRead (mkResult g a) x y = some (some (a x y)) := by
  unfold cellRead mkResult
  rw [List.get?_map, List.get?_range hx]
  show ((List.range g.size).map fun y => (some (a x y) : Cell)).get? y = some (some (a x y))
  rw [List.get?_map, List.get?_range hy]
  rfl

theorem mkResult_length {g : BinaryPuzzle} {a : Nat → Nat → Int} :
    (mkResult g a).length = g.size := by
  simp [mkResult]

theorem mkResult_eq_map_rowList {g : BinaryPuzzle} {a : Nat → Nat → Int} :
    mkResult g a = (List.range g.size).map fun x => (rowList g.size a x).map some := by
  unfold mkResult
  apply List.map_congr_left
  intro x _
  simp [rowList, List.map_map]

theorem construct_mkResult {g : BinaryPuzzle} {a : Nat → Nat → Int}
    (hne : g.size ≠ 0) (hev : g.size % 2 = 0) (hdom : domainSat g.size a = true) :
    construct (mkResult g a) = Except.ok ⟨mkResult g a, g.size⟩ := by
  have hdom' := domainSat_iff.mp hdom
  have hrowlen : ∀ row ∈ mkResult g a, row.length = g.size := by
    intro row hrow
    rcases List.mem_map.mp hrow with ⟨x, _, rfl⟩
    simp
  have h2 : totalCells (mkResult g a) = (mkResult g a).length ^ 2 := by
    rw [totalCells_eq, mkResult_length]
    have hmap : (mkResult g a).map List.length = (List.range g.size).map fun _ => g.size := by
      unfold mkResult
      rw [List.map_map]
      apply List.map_congr_left
      intro x _
      simp
    have hsum : ∀ k c : Nat, ((List.range k).map fun _ => c).sum = k * c := by
      intro k c
      induction k with
      | zero => simp
      | succ k ih =>
        rw [List.range_succ, List.map_append, List.sum_append]
        simp [ih, Nat.succ_mul]
    rw [hmap, hsum, sq]
  have h4 : ∀ row ∈ mkResult g a, ∀ v ∈ row, validCell v = true := by
    intro row hrow v hv
    rcases List.mem_map.mp hrow with ⟨x, hx, rfl⟩
    rcases List.mem_map.mp hv with ⟨y, hy, rfl⟩
    rcases hdom' x (List.mem_range.mp hx) y (List.mem_range.mp hy) with h0 | h0 <;>
      simp [validCell, h0]
  have key := construct_ok_of (p := mkResult g a)
    (by rw [mkResult_length]; exact hne) h2 (by rw [mkResult_length]; exact hev) h4
  rw [mkResult_length] at key
  exact key

theorem optList_eq_some {α : Type} (f : Nat → Option α) (gf : Nat → α) (l : List Nat)
    (h : ∀ x ∈ l, f x = some (gf x)) : optList f l = some (l.map gf) := by
  induction l with
  | nil => rfl
  | cons x xs ih =>
    unfold optList
    rw [h x (List.mem_cons_self _ _), ih fun y hy => h y (List.mem_cons_of_mem _ hy)]
    rfl

theorem solveSpec_ok_inv {g g' : BinaryPuzzle} (h : solveSpec g (SolveOutcome.ok g')) :
    seedOk g = true ∧ ∃ a, satisfies g a = true ∧
      construct (mkResult g a) = Except.ok g' := by
  unfold solveSpec at h
  by_cases hs : seedOk g = true
  · rw [if_pos hs] at h
    refine ⟨hs, ?_⟩
    rcases h with ⟨_, h⟩ | ⟨a, ha, hout⟩
    · exact SolveOutcome.noConfusion h
    · refine ⟨a, ha, ?_⟩
      rcases hc : construct (mkResult g a) with e | gg
      · rw [hc] at hout
        simp [outcomeOfExcept] at hout
      · rw [hc] at hout
        have hgg : g' = gg := by
          simpa [outcomeOfExcept] using hout
        rw [hgg]
  · rw [if_neg hs] at h
    exact SolveOutcome.noConfusion h

theorem solved_shape {p : List (List Cell)} {g g' : BinaryPuzzle}
    (hg : construct p = Except.ok g) (h : solveSpec g (SolveOutcome.ok g')) :
    ∃ a, satisfies g a = true ∧ g'.puzzle = mkResult g a ∧ g'.size = g.size := by
  rcases solveSpec_ok_inv h with ⟨_, a, ha, hc⟩
  rcases construct_ok_inv hc with ⟨hg', _⟩
  exact ⟨a, ha, by rw [hg'], by rw [hg']; exact mkResult_length⟩

theorem solved_rows {g g' : BinaryPuzzle} {a : Nat → Nat → Int}
    (hpuz : g'.puzzle = mkResult g a) :
    g'.rows = (List.range g.size).map fun x => (rowList g.size a x).map some := by
  rw [rows_eq, hpuz, mkResult_eq_map_rowList]

theorem solved_columnsM {g g' : BinaryPuzzle} {a : Nat → Nat → Int}
    (hpuz : g'.puzzle = mkResult g a) (hsz : g'.size = g.size) :
    g'.columnsM = some ((List.range g.size).map fun y => (colList g.size a y).map some) := by
  unfold BinaryPuzzle.columnsM
  rw [hsz, hpuz]
  apply optList_eq_some
  intro y hy
  have inner := optList_eq_some (fun x => cellRead (mkResult g a) x y)
    (fun x => (some (a x y) : Cell)) (List.range g.size)
    (fun x hx => cellRead_mkResult (List.mem_range.mp hx) (List.mem_range.mp hy))
  rw [inner]
  congr 1
  simp [colList, List.map_map]

theorem seedOk_of_square {p : List (List Cell)} {g : BinaryPuzzle}
    (hg : construct p = Except.ok g) (hsq : ∀ row ∈ p, row.length = p.length) :
    seedOk g = true := by
  rcases construct_ok_inv hg with ⟨hg', _⟩
  subst hg'
  refine seedOk_iff.mpr fun x hx y hy => ?_
  simp only at hx hy
  have hx' : p.get? x = some (p.get ⟨x, hx⟩) := List.get?_eq_get hx
  have hrow : p.get ⟨x, hx⟩ ∈ p := List.get_mem p x hx
  have hlen : (p.get ⟨x, hx⟩).length = p.length := hsq _ hrow
  have hy' : (p.get ⟨x, hx⟩).get? y = some ((p.get ⟨x, hx⟩).get ⟨y, by rw [hlen]; exact hy⟩) :=
    List.get?_eq_get _
  unfold cellRead
  rw [hx']
  show ((p.get ⟨x, hx⟩).get? y).isSome = true
  rw [hy']
  rfl

theorem construct_cases (p : List (List Cell)) :
    construct p = Except.error PuzzleError.invalid ∨
      construct p = Except.ok ⟨p, p.length⟩ := by
  simp only [construct]
  by_cases h1 : (p.length == 0) = true
  · rw [if_pos h1]; left; rfl
  rw [if_neg h1]
  by_cases h2 : (totalCells p != p.length ^ 2) = true
  · rw [if_pos h2]; left; rfl
  rw [if_neg h2]
  by_cases h3 : (p.length % 2 != 0) = true
  · rw [if_pos h3]; left; rfl
  rw [if_neg h3]
  by_cases h4 : (!(p.all fun row => row.all validCell)) = true
  · rw [if_pos h4]; left; rfl
  rw [if_neg h4]; right; rfl

/-- The 2×2 instance really is a run of `solve`: the checkerboard assignment
satisfies the constraint set and yields `twoSolved`. -/
theorem twoSolve : solveSpec twoG (SolveOutcome.ok twoSolved) := by
  unfold solveSpec
  rw [if_pos (by decide)]
  right
  exact ⟨twoA, by decide, by decide⟩

/-! ## The claims -/

/-- C1: the spec asserts that every Grid accepted by `construct` is square
(every row of length `size`).  The code only compares the total cell count
with `size ** 2`, so the ragged matrix `[[0, 1, 0], [0]]` is accepted even
though its rows have lengths 3 and 1 while `size = 2` — contradicting the
constructor's own comment that it ensures the puzzle is N x N. -/
theorem construct_accepts_ragged :
    construct raggedP = Except.ok ⟨raggedP, 2⟩ ∧
      (⟨raggedP, 2⟩ : BinaryPuzzle).rows.map List.length = [3, 1] := by
  constructor
  · rfl
  · rw [rows_eq]
    rfl

/-- C2: the spec asserts that `solve` on any accepted Grid either returns a
grid or raises `UnsolvablePuzzleError`.  On the accepted ragged grid
`[[0, 1, 0], [0]]` the seeding loop's read `self._puzzle[1][1]` is out of
bounds, so `solve` raises `IndexError` instead. -/
theorem solve_index_error_on_accepted :
    construct raggedP = Except.ok ⟨raggedP, 2⟩ ∧
      cellRead raggedP 1 1 = none ∧
      solveSpec ⟨raggedP, 2⟩ SolveOutcome.indexError := by
  refine ⟨rfl, rfl, ?_⟩
  unfold solveSpec
  rw [if_neg (by decide)]

/-- C3: for every constructed grid on which `solve` succeeds, every position
holding a concrete value in the input holds the same value in the result:
the solver never overwrites a given clue. -/
theorem solve_preserves_givens {p : List (List Cell)} {g g' : BinaryPuzzle}
    (hg : construct p = Except.ok g) (h : solveSpec g (SolveOutcome.ok g'))
    (x y : Nat) (hx : x < g.size) (hy : y < g.size) (v : Int)
    (hv : cellRead g.puzzle x y = some (some v)) :
    cellRead g'.puzzle x y = some (some v) := by
  rcases solved_shape hg h with ⟨a, ha, hpuz, hsz⟩
  have hseed := seedSat_iff.mp (satisfies_parts.mp ha).1 x hx y hy v hv
  rw [hpuz, cellRead_mkResult hx hy, hseed]

/-- Witness for C3 at the 2×2 instance: the given `1` at position (0, 1)
survives into the solved grid. -/
theorem solve_preserves_givens_witness :
    cellRead twoSolved.puzzle 0 1 = some (some 1) :=
  solve_preserves_givens (p := twoP) rfl twoSolve 0 1 (by decide) (by decide) 1 rfl

/-- C8: `construct` signals `InvalidPuzzleError` exactly when the input is
empty, or its total cell count differs from `size ** 2`, or `size` is odd,
or some cell value lies outside `{0, 1, None}`; in every other case it
succeeds. -/
theorem construct_invalid_iff (p : List (List Cell)) :
    (construct p = Except.error PuzzleError.invalid ↔
      (p.length = 0 ∨ totalCells p ≠ p.length ^ 2 ∨ p.length % 2 = 1 ∨
        ∃ row ∈ p, ∃ v ∈ row, v ≠ some 0 ∧ v ≠ some 1 ∧ v ≠ none)) ∧
    ((p.length ≠ 0 ∧ totalCells p = p.length ^ 2 ∧ p.length % 2 = 0 ∧
        ∀ row ∈ p, ∀ v ∈ row, v = some 0 ∨ v = some 1 ∨ v = none) →
      construct p = Except.ok ⟨p, p.length⟩) := by
  constructor
  · constructor
    · intro h
      by_contra hcon
      push_neg at hcon
      obtain ⟨h1, h2, h3, h4⟩ := hcon
      have hok := construct_ok_of h1 h2 (by omega) ?_
      · rw [hok] at h
        exact Except.noConfusion h
      · intro row hrow v hv
        rw [validCell_iff]
        have := h4 row hrow v hv
        tauto
    · intro h
      rcases construct_cases p with hc | hc
      · exact hc
      · exfalso
        rcases construct_ok_inv hc with ⟨_, h1, h2, h3, h4⟩
        rcases h with h | h | h | h
        · exact h1 h
        · exact h h2
        · omega
        · rcases h with ⟨row, hrow, v, hv, hv0, hv1, hvn⟩
          have := (validCell_iff v).mp (h4 row hrow v hv)
          tauto
  · rintro ⟨h1, h2, h3, h4⟩
    exact construct_ok_of h1 h2 h3 fun row hrow v hv =>
      (validCell_iff v).mpr (h4 row hrow v hv)

/-- Witness for C8 at a concrete accepted input. -/
theorem construct_invalid_iff_witness :
    construct twoP = Except.ok ⟨twoP, twoP.length⟩ :=
  (construct_invalid_iff twoP).2 (by decide)

/-- C10: comparing a `BinaryPuzzle` with a non-`BinaryPuzzle` operand (such
as an integer) never raises and is never true: `__eq__` answers
`NotImplemented` and Python's fallback makes the comparison false. -/
theorem eq_non_puzzle_false (g : BinaryPuzzle) (other : PyValue)
    (h : ∀ o : BinaryPuzzle, other ≠ PyValue.puzzle o) :
    pyEq g other = false := by
  unfold pyEq eqMethod
  cases other with
  | puzzle o => exact absurd rfl (h o)
  | intVal n => rfl

/-- Witness for C10: the test suite's comparison with `42` is false. -/
theorem eq_non_puzzle_false_witness :
    pyEq ⟨twoP, 2⟩ (PyValue.intVal 42) = false :=
  eq_non_puzzle_false ⟨twoP, 2⟩ (PyValue.intVal 42) fun o h => PyValue.noConfusion h

/-- The 4×4 instance really is a run of `solve`. -/
theorem fourSolve : solveSpec fourG (SolveOutcome.ok fourSolved) := by
  unfold solveSpec
  rw [if_pos (by decide)]
  right
  exact ⟨fourA, by decide, by decide⟩

/-- C4: in any grid returned by a successful `solve`, every row and every
column contains exactly `size / 2` zeros, exactly `size / 2` ones, and no
unknown markers. -/
theorem solved_balance {p : List (List Cell)} {g g' : BinaryPuzzle}
    (hg : construct p = Except.ok g) (h : solveSpec g (SolveOutcome.ok g')) :
    ∃ cols, g'.columnsM = some cols ∧
      ∀ line ∈ g'.rows ++ cols,
        line.count (some 0) = g.size / 2 ∧ line.count (some 1) = g.size / 2 ∧
          line.count N = 0 := by
  rcases solved_shape hg h with ⟨a, ha, hpuz, hsz⟩
  rcases construct_ok_inv hg with ⟨hgp, hne, htot, hev, hval⟩
  rcases satisfies_parts.mp ha with ⟨hseed, hdom, hrb, hcb, hru, hcu, htr⟩
  have hev' : g.size % 2 = 0 := by rw [hgp]; exact hev
  have hdom' := domainSat_iff.mp hdom
  refine ⟨_, solved_columnsM hpuz hsz, ?_⟩
  intro line hline
  rcases List.mem_append.mp hline with hline | hline
  · rw [solved_rows hpuz] at hline
    rcases List.mem_map.mp hline with ⟨x, hx, rfl⟩
    have hx' := List.mem_range.mp hx
    have h01 := rowList_mem01 (n := g.size) (a := a) (x := x) fun y hy => hdom' x hx' y hy
    have hcounts := (sum_iff_counts hev' length_rowList h01).mp (rowBalance_iff.mp hrb x hx')
    refine ⟨?_, ?_, ?_⟩
    · rw [count_map_some]; exact hcounts.1
    · rw [count_map_some]; exact hcounts.2
    · exact count_none_map_some _
  · rcases List.mem_map.mp hline with ⟨y, hy, rfl⟩
    have hy' := List.mem_range.mp hy
    have h01 := colList_mem01 (n := g.size) (a := a) (y := y) fun x hx => hdom' x hx y hy'
    have hcounts := (sum_iff_counts hev' length_colList h01).mp (colBalance_iff.mp hcb y hy')
    refine ⟨?_, ?_, ?_⟩
    · rw [count_map_some]; exact hcounts.1
    · rw [count_map_some]; exact hcounts.2
    · exact count_none_map_some _

/-- Witness for C4 at the 2×2 instance. -/
theorem solved_balance_witness :
    ∃ cols, twoSolved.columnsM = some cols ∧
      ∀ line ∈ twoSolved.rows ++ cols,
        line.count (some 0) = twoG.size / 2 ∧ line.count (some 1) = twoG.size / 2 ∧
          line.count N = 0 :=
  solved_balance (p := twoP) rfl twoSolve

/-- C5: in any grid returned by a successful `solve` on a grid with
`size > 2`, no row and no column contains three consecutive equal values;
and for `size = 2` the no-triple constraint family is not applied at all
(it is trivially `true` for every assignment). -/
theorem solved_no_triples :
    (∀ (p : List (List Cell)) (g g' : BinaryPuzzle),
      construct p = Except.ok g → solveSpec g (SolveOutcome.ok g') → 2 < g.size →
        ∃ cols, g'.columnsM = some cols ∧
          ∀ line ∈ g'.rows ++ cols, ∀ i, i + 2 < line.length →
            ¬(line.get? i = line.get? (i + 1) ∧ line.get? (i + 1) = line.get? (i + 2))) ∧
    (∀ a : Nat → Nat → Int, tripleSat 2 a = true) := by
  constructor
  · intro p g g' hg h h2
    rcases solved_shape hg h with ⟨a, ha, hpuz, hsz⟩
    rcases satisfies_parts.mp ha with ⟨hseed, hdom, hrb, hcb, hru, hcu, htr⟩
    have htr' := tripleSat_iff.mp htr
    refine ⟨_, solved_columnsM hpuz hsz, ?_⟩
    intro line hline i hi
    rcases List.mem_append.mp hline with hline | hline
    · rw [solved_rows hpuz] at hline
      rcases List.mem_map.mp hline with ⟨x, hx, rfl⟩
      have hx' := List.mem_range.mp hx
      rw [List.length_map, length_rowList] at hi
      rintro ⟨e1, e2⟩
      have g0 : ((rowList g.size a x).map some).get? i = some (some (a x i)) := by
        rw [List.get?_map, rowList_get? (by omega)]
        rfl
      have g1 : ((rowList g.size a x).map some).get? (i + 1) = some (some (a x (i + 1))) := by
        rw [List.get?_map, rowList_get? (by omega)]
        rfl
      have g2 : ((rowList g.size a x).map some).get? (i + 2) = some (some (a x (i + 2))) := by
        rw [List.get?_map, rowList_get? (by omega)]
        rfl
      rw [g0, g1] at e1
      rw [g1, g2] at e2
      exact htr'.1 x hx' i hi
        ⟨by injection e1 with e1'; injection e1', by injection e2 with e2'; injection e2'⟩
    · rcases List.mem_map.mp hline with ⟨y, hy, rfl⟩
      have hy' := List.mem_range.mp hy
      rw [List.length_map, length_colList] at hi
      rintro ⟨e1, e2⟩
      have g0 : ((colList g.size a y).map some).get? i = some (some (a i y)) := by
        rw [List.get?_map, colList_get? (by omega)]
        rfl
      have g1 : ((colList g.size a y).map some).get? (i + 1) = some (some (a (i + 1) y)) := by
        rw [List.get?_map, colList_get? (by omega)]
        rfl
      have g2 : ((colList g.size a y).map some).get? (i + 2) = some (some (a (i + 2) y)) := by
        rw [List.get?_map, colList_get? (by omega)]
        rfl
      rw [g0, g1] at e1
      rw [g1, g2] at e2
      exact htr'.2 y hy' i hi
        ⟨by injection e1 with e1'; injection e1', by injection e2 with e2'; injection e2'⟩
  · intro a
    rfl

/-- Witness for C5: the 4×4 instance for the `size > 2` part, and a direct
evaluation of the constraint family at `size = 2`. -/
theorem solved_no_triples_witness :
    (∃ cols, fourSolved.columnsM = some cols ∧
      ∀ line ∈ fourSolved.rows ++ cols, ∀ i, i + 2 < line.length →
        ¬(line.get? i = line.get? (i + 1) ∧ line.get? (i + 1) = line.get? (i + 2))) ∧
    tripleSat 2 twoA = true :=
  ⟨solved_no_triples.1 fourP fourG fourSolved rfl fourSolve (by decide),
    solved_no_triples.2 twoA⟩

/-- C6: in any grid returned by a successful `solve`, the rows are pairwise
distinct and the columns are pairwise distinct. -/
theorem solved_distinct {p : List (List Cell)} {g g' : BinaryPuzzle}
    (hg : construct p = Except.ok g) (h : solveSpec g (SolveOutcome.ok g')) :
    ∃ cols, g'.columnsM = some cols ∧ g'.rows.Nodup ∧ cols.Nodup := by
  rcases solved_shape hg h with ⟨a, ha, hpuz, hsz⟩
  rcases satisfies_parts.mp ha with ⟨hseed, hdom, hrb, hcb, hru, hcu, htr⟩
  refine ⟨_, solved_columnsM hpuz hsz, ?_, ?_⟩
  · rw [solved_rows hpuz]
    refine List.Nodup.map_on ?_ (List.nodup_range g.size)
    intro x1 hx1 x2 hx2 heq
    by_contra hne
    exact rowsUnique_iff.mp hru x1 (List.mem_range.mp hx1) x2 (List.mem_range.mp hx2) hne
      ((List.map_injective_iff.mpr (Option.some_injective Int)) heq)
  · refine List.Nodup.map_on ?_ (List.nodup_range g.size)
    intro y1 hy1 y2 hy2 heq
    by_contra hne
    exact colsUnique_iff.mp hcu y1 (List.mem_range.mp hy1) y2 (List.mem_range.mp hy2) hne
      ((List.map_injective_iff.mpr (Option.some_injective Int)) heq)

/-- Witness for C6 at the 2×2 instance. -/
theorem solved_distinct_witness :
    ∃ cols, twoSolved.columnsM = some cols ∧ twoSolved.rows.Nodup ∧ cols.Nodup :=
  solved_distinct (p := twoP) rfl twoSolve

/-! ## Support for the unsolvability and idempotence claims -/

theorem mkResult_get? {g : BinaryPuzzle} {b : Nat → Nat → Int} {x : Nat} (hx : x < g.size) :
    (mkResult g b).get? x = some ((List.range g.size).map fun y => (some (b x y) : Cell)) := by
  unfold mkResult
  rw [List.get?_map, List.get?_range hx]
  rfl

theorem solveSpec_unsolvable_iff {g : BinaryPuzzle} (hs : seedOk g = true) :
    solveSpec g SolveOutcome.unsolvable ↔ ¬ Solvable g := by
  unfold solveSpec
  rw [if_pos hs]
  constructor
  · rintro (⟨hns, _⟩ | ⟨a, ha, hout⟩)
    · exact hns
    · exfalso
      rcases hc : construct (mkResult g a) with e | gg <;> rw [hc] at hout <;>
        simp [outcomeOfExcept] at hout
  · intro hns
    exact Or.inl ⟨hns, rfl⟩

theorem length_mul_le_sum {l : List Nat} {k : Nat} (hge : ∀ x ∈ l, k ≤ x) :
    l.length * k ≤ l.sum := by
  induction l with
  | nil => simp
  | cons a l ih =>
    have hl := ih fun x hx => hge x (List.mem_cons_of_mem _ hx)
    have ha := hge a (List.mem_cons_self _ _)
    simp only [List.length_cons, List.sum_cons, Nat.succ_mul]
    omega

theorem sum_eq_of_ge {l : List Nat} {k : Nat} (hge : ∀ x ∈ l, k ≤ x)
    (hsum : l.sum = l.length * k) : ∀ x ∈ l, x = k := by
  induction l with
  | nil => intro x hx; exact absurd hx (List.not_mem_nil x)
  | cons a l ih =>
    have hge' : ∀ x ∈ l, k ≤ x := fun x hx => hge x (List.mem_cons_of_mem _ hx)
    have hlb := length_mul_le_sum hge'
    have ha := hge a (List.mem_cons_self _ _)
    have hsum' : a + l.sum = l.length * k + k := by
      simpa [List.sum_cons, List.length_cons, Nat.succ_mul] using hsum
    intro x hx
    rcases List.mem_cons.mp hx with rfl | hx
    · omega
    · exact ih hge' (by omega) x hx

theorem fullyGiven_puzzle_eq {p : List (List Cell)} {g : BinaryPuzzle} {b : Nat → Nat → Int}
    (hg : construct p = Except.ok g) (hb : fullyGiven g b) :
    g.puzzle = mkResult g b := by
  rcases construct_ok_inv hg with ⟨hgp, hne, htot, hev, hval⟩
  have hpuz : g.puzzle = p := by rw [hgp]
  have hsize : g.size = p.length := by rw [hgp]
  have hnlen : g.puzzle.length = g.size := by rw [hpuz, hsize]
  have hne' : g.size ≠ 0 := by rw [hsize]; exact hne
  have hge : ∀ row ∈ g.puzzle, g.size ≤ row.length := by
    intro row hrow
    rcases List.mem_iff_get.mp hrow with ⟨⟨x, hxl⟩, hrowx⟩
    have hx : x < g.size := by rw [← hnlen]; exact hxl
    have hcell := hb x hx (g.size - 1) (by omega)
    unfold cellRead at hcell
    rw [List.get?_eq_get hxl] at hcell
    simp only [Option.some_bind] at hcell
    rw [hrowx] at hcell
    rcases List.get?_eq_some.mp hcell with ⟨hlt, _⟩
    omega
  have hrowlen : ∀ row ∈ g.puzzle, row.length = g.size := by
    have hsum : (g.puzzle.map List.length).sum = (g.puzzle.map List.length).length * g.size := by
      rw [← totalCells_eq, List.length_map, hnlen, hpuz, htot, hsize, sq]
    intro row hrow
    exact sum_eq_of_ge
      (fun x hx => by rcases List.mem_map.mp hx with ⟨r, hr, rfl⟩; exact hge r hr)
      hsum _ (List.mem_map_of_mem _ hrow)
  apply List.ext_get?
  intro x
  by_cases hx : x < g.size
  · rw [mkResult_get? hx]
    have hxl : x < g.puzzle.length := by omega
    rw [List.get?_eq_get hxl]
    congr 1
    have hrowmem : g.puzzle.get ⟨x, hxl⟩ ∈ g.puzzle := List.get_mem _ _ _
    have hrlen : (g.puzzle.get ⟨x, hxl⟩).length = g.size := hrowlen _ hrowmem
    apply List.ext_get?
    intro y
    by_cases hy : y < g.size
    · have hcell := hb x hx y hy
      unfold cellRead at hcell
      rw [List.get?_eq_get hxl] at hcell
      simp only [Option.some_bind] at hcell
      rw [hcell, List.get?_map, List.get?_range hy]
      rfl
    · have h1 : (g.puzzle.get ⟨x, hxl⟩).get? y = none := List.get?_eq_none.mpr (by omega)
      have h2 : ((List.range g.size).map fun y => (some (b x y) : Cell)).get? y = none := by
        apply List.get?_eq_none.mpr
        simp only [List.length_map, List.length_range]
        omega
      rw [h1, h2]
  · have h1 : g.puzzle.get? x = none := List.get?_eq_none.mpr (by omega)
    have h2 : (mkResult g b).get? x = none := by
      apply List.get?_eq_none.mpr
      rw [mkResult_length]
      omega
    rw [h1, h2]

/-- C7: for a constructed square grid, `solve` raises `UnsolvablePuzzleError`
exactly when no 0/1 assignment extending the given cells satisfies the four
rules; in particular the all-ones 4×4 grid and `[[1, 1], [1, N]]` are
reported unsolvable, with no partial result. -/
theorem solve_unsolvable_iff :
    (∀ (p : List (List Cell)) (g : BinaryPuzzle),
      construct p = Except.ok g → (∀ row ∈ p, row.length = p.length) →
        (solveSpec g SolveOutcome.unsolvable ↔ ¬∃ b, SpecSolution g b)) ∧
    solveSpec ⟨ones4P, 4⟩ SolveOutcome.unsolvable ∧
    solveSpec ⟨ones2P, 2⟩ SolveOutcome.unsolvable := by
  refine ⟨?_, ?_, ?_⟩
  · intro p g hg hsq
    rcases construct_ok_inv hg with ⟨hgp, hne, htot, hev, hval⟩
    have hev' : g.size % 2 = 0 := by rw [hgp]; exact hev
    rw [solveSpec_unsolvable_iff (seedOk_of_square hg hsq)]
    unfold Solvable
    constructor
    · intro hns hex
      rcases hex with ⟨b, hbspec⟩
      exact hns ⟨b, (satisfies_iff_spec hev' b).mpr hbspec⟩
    · intro hnb hex
      rcases hex with ⟨a, ha⟩
      exact hnb ⟨a, (satisfies_iff_spec hev' a).mp ha⟩
  · rw [solveSpec_unsolvable_iff (by decide)]
    rintro ⟨a, ha⟩
    rcases satisfies_parts.mp ha with ⟨hseed, hdom, hrb, _⟩
    have h0 := seedSat_iff.mp hseed 0 (by decide) 0 (by decide) 1 rfl
    have h1 := seedSat_iff.mp hseed 0 (by decide) 1 (by decide) 1 rfl
    have h2 := seedSat_iff.mp hseed 0 (by decide) 2 (by decide) 1 rfl
    have h3 := seedSat_iff.mp hseed 0 (by decide) 3 (by decide) 1 rfl
    have hsum := rowBalance_iff.mp hrb 0 (by decide)
    have hlist : rowList 4 a 0 = [a 0 0, a 0 1, a 0 2, a 0 3] := rfl
    rw [show (⟨ones4P, 4⟩ : BinaryPuzzle).size = 4 from rfl] at hsum
    rw [hlist] at hsum
    simp only [List.sum_cons, List.sum_nil] at hsum
    rw [h0, h1, h2, h3] at hsum
    omega
  · rw [solveSpec_unsolvable_iff (by decide)]
    rintro ⟨a, ha⟩
    rcases satisfies_parts.mp ha with ⟨hseed, hdom, hrb, _⟩
    have h0 := seedSat_iff.mp hseed 0 (by decide) 0 (by decide) 1 rfl
    have h1 := seedSat_iff.mp hseed 0 (by decide) 1 (by decide) 1 rfl
    have hsum := rowBalance_iff.mp hrb 0 (by decide)
    have hlist : rowList 2 a 0 = [a 0 0, a 0 1] := rfl
    rw [show (⟨ones2P, 2⟩ : BinaryPuzzle).size = 2 from rfl] at hsum
    rw [hlist] at hsum
    simp only [List.sum_cons, List.sum_nil] at hsum
    rw [h0, h1] at hsum
    omega

/-- Witness for C7: applying the equivalence at `[[1, 1], [1, N]]` shows no
assignment satisfies the spec's four rules there. -/
theorem solve_unsolvable_iff_witness :
    ¬∃ b, SpecSolution ⟨ones2P, 2⟩ b :=
  (solve_unsolvable_iff.1 ones2P ⟨ones2P, 2⟩ rfl (by decide)).mp
    solve_unsolvable_iff.2.2

/-- C9: solving a constructed grid that is already fully assigned and itself
satisfies the four rules succeeds, and the returned grid has exactly the
same rows as the input grid. -/
theorem solve_idempotent {p : List (List Cell)} {g : BinaryPuzzle}
    (hg : construct p = Except.ok g) (b : Nat → Nat → Int)
    (hb : fullyGiven g b) (hs : SpecSolution g b) :
    (∃ out, solveSpec g out) ∧
      ∀ out, solveSpec g out → ∃ g2, out = SolveOutcome.ok g2 ∧ g2.rows = g.rows := by
  rcases construct_ok_inv hg with ⟨hgp, hne, htot, hev, hval⟩
  have hev' : g.size % 2 = 0 := by rw [hgp]; exact hev
  have hne' : g.size ≠ 0 := by rw [hgp]; simpa using hne
  have hsat : satisfies g b = true := (satisfies_iff_spec hev' b).mpr hs
  have hseedOk : seedOk g = true := by
    refine seedOk_iff.mpr fun x hx y hy => ?_
    rw [hb x hx y hy]
    rfl
  have hpeq : g.puzzle = mkResult g b := fullyGiven_puzzle_eq hg hb
  constructor
  · refine ⟨outcomeOfExcept (construct (mkResult g b)), ?_⟩
    unfold solveSpec
    rw [if_pos hseedOk]
    exact Or.inr ⟨b, hsat, rfl⟩
  · intro out hout
    unfold solveSpec at hout
    rw [if_pos hseedOk] at hout
    rcases hout with ⟨hns, _⟩ | ⟨a, ha, hout⟩
    · exact absurd ⟨b, hsat⟩ hns
    · have hagree : ∀ x < g.size, ∀ y < g.size, a x y = b x y := fun x hx y hy =>
        seedSat_iff.mp (satisfies_parts.mp ha).1 x hx y hy (b x y) (hb x hx y hy)
      have hmk : mkResult g a = mkResult g b := by
        unfold mkResult
        apply List.map_congr_left
        intro x hx
        apply List.map_congr_left
        intro y hy
        rw [hagree x (List.mem_range.mp hx) y (List.mem_range.mp hy)]
      have hdom := (satisfies_parts.mp ha).2.1
      have hcons := construct_mkResult hne' hev' hdom
      rw [hout, hcons]
      refine ⟨⟨mkResult g a, g.size⟩, rfl, ?_⟩
      rw [rows_eq, rows_eq]
      show mkResult g a = g.puzzle
      rw [hmk, hpeq]

/-- Witness for C9 at the already-solved 2×2 grid `[[0, 1], [1, 0]]`. -/
theorem solve_idempotent_witness :
    (∃ out, solveSpec twoG out) ∧
      ∀ out, solveSpec twoG out → ∃ g2, out = SolveOutcome.ok g2 ∧ g2.rows = twoG.rows := by
  have hfg : fullyGiven twoG twoA := by
    unfold fullyGiven
    decide
  refine solve_idempotent (p := twoP) rfl twoA hfg ?_
  refine ⟨by decide, ?_, by decide, by decide, ?_, ?_, by decide, by decide⟩
  · intro x hx y hy v hv
    rw [hfg x hx y hy] at hv
    injection hv with hv1
    injection hv1 with hv2
  · intro z hz i hi
    have h2 : twoG.size = 2 := rfl
    rw [h2] at hi
    omega
  · intro z hz i hi
    have h2 : twoG.size = 2 := rfl
    rw [h2] at hi
    omega

end BinaryPuzzleModel
